import Mathlib

/-!
# Verification of the dbmigrate migration core

Shallow embedding of the `dbmigrate` repository's core:

* the filename codec (`MigrationFileName::parse` / `to_string` in
  `dbmigrate-lib/src/files.rs`),
* the migration-set loader (`read_migration_files`),
* `create_migration`,
* the migration controller (`up`, `down`, `redo`, `revert`, `create` in
  `dbmigrate/src/cmd.rs`) driven through a `Driver` whose `migrate`
  behaviour follows the MySQL driver (`drivers/mysql.rs`): on success the
  driver persists the resulting version, on failure the version register
  is left unchanged.

Rust `u16`/`i32` values are modelled as `Nat` (with explicit `% 65536`
where the source casts with `as u16`); fallible operations return
`Option`/`Except`; panics (`unwrap` on `None`) are modelled as a distinct
outcome.  Filesystem I/O is abstracted: a directory is a list of
`(filename, content)` pairs and file creation returns the names of the
files that would be created.
-/

namespace Dbmigrate

/-- Character class `[0-9]` of the filename regex. -/
def isDigitChar (c : Char) : Bool := '0' ≤ c && c ≤ '9'

/-- Character class `[_0-9a-zA-Z]` of the filename regex (the `name` group). -/
def validNameChar (c : Char) : Bool :=
  c == '_' || ('0' ≤ c && c ≤ '9') || ('a' ≤ c && c ≤ 'z') || ('A' ≤ c && c ≤ 'Z')

/-- Numeric value of a decimal digit character (used by `parse::<u16>()` on
the matched 4-digit group). -/
def digitVal (c : Char) : Nat := c.toNat - 48

/-- `enum Direction { Up, Down }` from `files.rs`. -/
inductive Direction where
  | Up
  | Down
deriving DecidableEq

/-- `impl ToString for Direction` from `files.rs`. -/
def Direction.str : Direction → String
  | .Up => "up"
  | .Down => "down"

/-- `struct MigrationFileName` from `files.rs` (`number: u16`, `name: String`,
`direction: Direction`). -/
structure MigrationFileName where
  number : Nat
  name : String
  direction : Direction
deriving DecidableEq

/-- Decimal digits of `n`, zero-padded on the left to at least four
characters: the model of Rust's `format!("{:04}", number)` used by
`MigrationFileName::to_string`. -/
def pad4 (n : Nat) : List Char :=
  List.replicate (4 - (Nat.toDigits 10 n).length) '0' ++ Nat.toDigits 10 n

/-- The characters of `format!("{:04}.{}.{}.sql", number, name, direction)`
(`impl ToString for MigrationFileName`, `files.rs` lines 216–220). -/
def MigrationFileName.toChars (m : MigrationFileName) : List Char :=
  pad4 m.number ++ '.' :: m.name.toList ++ '.' :: m.direction.str.toList
    ++ ['.', 's', 'q', 'l']

/-- `MigrationFileName::to_string`. -/
def MigrationFileName.toString (m : MigrationFileName) : String :=
  String.mk m.toChars

/-- Splits a character list at the first `'.'`, requiring every character
before it to lie in `[_0-9a-zA-Z]`: the `name` capture group of the regex
`^([0-9]{4})\.([_0-9a-zA-Z]*)\.(up|down)\.sql$`.  Since neither the name
class nor `up`/`down` may contain a dot, the anchored regex matches exactly
when the name extends to the first dot and the remainder is `up.sql` or
`down.sql`. -/
def parseName : List Char → Option (List Char × List Char)
  | [] => none
  | c :: rest =>
    if c = '.' then some ([], rest)
    else if validNameChar c then
      match parseName rest with
      | some (nm, r) => some (c :: nm, r)
      | none => none
    else none

/-- The filename regex match of `MigrationFileName::parse` (`files.rs`
lines 189–213): four digits, a dot, the name, a dot, `up`/`down`, `.sql`,
anchored on both sides; the number group is parsed as a decimal `u16`. -/
def parseChars : List Char → Option MigrationFileName
  | d1 :: d2 :: d3 :: d4 :: sep :: rest =>
    if isDigitChar d1 && isDigitChar d2 && isDigitChar d3 && isDigitChar d4
        && sep == '.' then
      match parseName rest with
      | none => none
      | some (nm, tail) =>
        let number :=
          ((digitVal d1 * 10 + digitVal d2) * 10 + digitVal d3) * 10 + digitVal d4
        if tail == "up.sql".toList then
          some ⟨number, String.mk nm, .Up⟩
        else if tail == "down.sql".toList then
          some ⟨number, String.mk nm, .Down⟩
        else none
    else none
  | _ => none

/-- `MigrationFileName::parse`; `none` models the `InvalidFilename` failure. -/
def MigrationFileName.parse (s : String) : Option MigrationFileName :=
  parseChars s.toList

/-- `BTreeMap::get`, on the model of a `BTreeMap` as an association list
sorted by strictly increasing key. -/
def btFind {α : Type} : List (Nat × α) → Nat → Option α
  | [], _ => none
  | (k', v') :: rest, k => if k = k' then some v' else btFind rest k

/-- `BTreeMap::insert` (and the loader's `remove` + `insert` sequence,
which is the same map transformation): sorted insertion replacing an
existing binding of the same key. -/
def btInsert {α : Type} : List (Nat × α) → Nat → α → List (Nat × α)
  | [], k, v => [(k, v)]
  | (k', v') :: rest, k, v =>
    if k < k' then (k, v) :: (k', v') :: rest
    else if k = k' then (k, v) :: rest
    else (k', v') :: btInsert rest k v

/-- `struct MigrationNameAndContent` from `files.rs`. -/
structure MigrationNameAndContent where
  name : String
  content : String
deriving DecidableEq

/-- The loader's per-number record of the optional up-side and down-side
(`files.rs` lines 54–57; the source calls it the pending/half-built
migration of the grouping pass). -/
structure UpDownPair where
  up : Option MigrationNameAndContent
  down : Option MigrationNameAndContent
deriving DecidableEq

/-- `struct Migration` from `files.rs` (lines 59–68). -/
structure Migration where
  up : String
  down : String
  name : String
deriving DecidableEq

/-- `type Migrations = BTreeMap<u16, Migration>`, as its sorted
association list. -/
abbrev Migrations := List (Nat × Migration)

/-- The loader's validation failures (`bail!` sites of
`read_migration_files`), named as the spec's error taxonomy names them. -/
inductive LoadError where
  | MissingMigration (number : Nat)
  | IncompleteMigrationPair (number : Nat)
  | NameMismatch (number : Nat) (upName downName : String)
deriving DecidableEq

/-- One iteration of the directory-scan loop of `read_migration_files`
(`files.rs` lines 132–158): group the parsed entry into the per-number
record, the later entry for the same `(number, direction)` overwriting the
earlier one. -/
def scanStep (m : List (Nat × UpDownPair)) (info : MigrationFileName)
    (content : String) : List (Nat × UpDownPair) :=
  let mnac : MigrationNameAndContent := ⟨info.name, content⟩
  let pending : UpDownPair :=
    match btFind m info.number with
    | none =>
      match info.direction with
      | .Up => ⟨some mnac, none⟩
      | .Down => ⟨none, some mnac⟩
    | some prev =>
      match info.direction with
      | .Up => { prev with up := some mnac }
      | .Down => { prev with down := some mnac }
  btInsert m info.number pending

/-- Processing of a single directory entry by the scan loop: parse the
filename, skipping the entry silently when it fails. -/
def scanEntry (m : List (Nat × UpDownPair)) (e : String × String) :
    List (Nat × UpDownPair) :=
  match MigrationFileName.parse e.1 with
  | none => m
  | some info => scanStep m info e.2

/-- The directory-scan pass of `read_migration_files` (`files.rs` lines
116–159).  A directory is modelled as the list of its entries in
enumeration order, each a `(filename, content)` pair. -/
def scan (entries : List (String × String)) : List (Nat × UpDownPair) :=
  entries.foldl scanEntry []

/-- The validation loop of `read_migration_files` (`files.rs` lines
161–181): enumerate the grouped numbers in ascending order with a running
index, check contiguity first (`index + 1 == number`), then that both
sides are present, then that their names agree. -/
def validateLoop : Nat → List (Nat × UpDownPair) → Migrations →
    Except LoadError Migrations
  | _, [], acc => .ok acc
  | index, (number, pending) :: rest, acc =>
    if index + 1 ≠ number then .error (.MissingMigration (index + 1))
    else
      match pending with
      | ⟨some upSide, some downSide⟩ =>
        if upSide.name ≠ downSide.name then
          .error (.NameMismatch number upSide.name downSide.name)
        else
          validateLoop (index + 1) rest
            (btInsert acc number ⟨upSide.content, downSide.content, upSide.name⟩)
      | _ => .error (.IncompleteMigrationPair number)

/-- `read_migration_files` (`files.rs` lines 115–184), over the directory's
entry list. -/
def read_migration_files (entries : List (String × String)) :
    Except LoadError Migrations :=
  validateLoop 0 (scan entries) []

/-- `create_migration` (`files.rs` lines 87–111): sanitize the slug by
replacing spaces with underscores, build the up and down filenames
(casting the `i32` number to `u16` as the source does), round-trip each
through `parse` as a self-check, and create the two files.  File-creation
I/O is abstracted: the result is the list of filenames created, `none`
modelling the error path. -/
def create_migration (slug : String) (number : Nat) : Option (List String) :=
  let fixed_slug := String.mk (slug.toList.map fun c => if c = ' ' then '_' else c)
  let migration_filename_up : MigrationFileName := ⟨number % 65536, fixed_slug, .Up⟩
  let filename_up := migration_filename_up.toString
  match MigrationFileName.parse filename_up with
  | none => none
  | some _ =>
    let migration_filename_down : MigrationFileName :=
      { migration_filename_up with direction := .Down }
    let filename_down := migration_filename_down.toString
    match MigrationFileName.parse filename_down with
    | none => none
    | some _ => some [filename_up, filename_down]

/-! ## The migration controller (`dbmigrate/src/cmd.rs`)

`cmd.rs` manipulates a `Migrations` map whose values carry an optional
up-side and down-side `MigrationFile` (each with optional content), and a
boxed `Driver`.  The driver is modelled by its script-execution behaviour
`exec : String → Nat → Bool` together with the version register: per the
driver contract (`drivers/mysql.rs`), `migrate(script, number)` runs the
script and, only on success, persists `number` as the new current
version; on failure the register is unchanged.  `unwrap` on a missing
value is modelled as the `panicked` outcome. -/

/-- `struct MigrationFile` from `files.rs` (lines 30–41), as `cmd.rs` uses
it (the `filename` field is never read by the controller and is omitted). -/
structure MigrationFile where
  content : Option String
  direction : Direction
  number : Nat
  name : String
deriving DecidableEq

/-- The migration record as `cmd.rs` consumes it: optional up-side and
down-side files (`migration.up.as_ref().unwrap()` /
`migration.down.as_ref().unwrap()`). -/
structure CmdMigration where
  up : Option MigrationFile
  down : Option MigrationFile
deriving DecidableEq

/-- The controller's `Migrations` map as its sorted association list
(ascending `BTreeMap` iteration order). -/
abbrev CmdMigrations := List (Nat × CmdMigration)

/-- One `Driver::migrate` invocation as observed at the driver boundary:
the script text passed and the resulting version to persist. -/
structure Call where
  content : String
  version : Nat
deriving DecidableEq

/-- Outcome of a controller command: success, a surfaced migration
failure, or a Rust panic (`unwrap` on `None`). -/
inductive RunResult where
  | ok
  | err
  | panicked
deriving DecidableEq

/-- A controller run's observables: outcome, final version register, and
the list of `Driver::migrate` calls in order. -/
abbrev RunOut := RunResult × Nat × List Call

/-- `Iterator::max` over a key list (`migration_files.keys().max()`). -/
def listMax (l : List Nat) : Option Nat :=
  l.foldl
    (fun acc k =>
      match acc with
      | none => some k
      | some m => some (Nat.max m k))
    none

/-- `migration_files.keys()`. -/
def keysOf {α : Type} (l : List (Nat × α)) : List Nat := l.map Prod.fst

/-- The `migrate` helper of `cmd.rs` (lines 10–27): compute the resulting
version from the file's direction (`number` for up, `number - 1` for
down), unwrap the content (panic if absent, modelled as `none`), and run
it through the driver; on success the driver persists the resulting
version, on failure the register keeps its value `cur`.  Returns the
success flag, the register after the call, and the observed call. -/
def cmdMigrate (exec : String → Nat → Bool) (cur : Nat) (f : MigrationFile) :
    Option (Bool × Nat × Call) :=
  let number :=
    match f.direction with
    | .Up => f.number
    | .Down => f.number - 1
  match f.content with
  | none => none
  | some content =>
    if exec content number then some (true, number, ⟨content, number⟩)
    else some (false, cur, ⟨content, number⟩)

/-- The `for` loop of `up` (`cmd.rs` lines 67–72): iterate the map in
ascending order, and for each number greater than the current version
read at entry, unwrap the up-side file and run it, stopping at the first
failure. -/
def upLoop (exec : String → Nat → Bool) (current : Nat) :
    CmdMigrations → Nat → List Call → RunOut
  | [], cur, calls => (.ok, cur, calls)
  | (number, migration) :: rest, cur, calls =>
    if current < number then
      match migration.up with
      | none => (.panicked, cur, calls)
      | some f =>
        match cmdMigrate exec cur f with
        | none => (.panicked, cur, calls)
        | some (true, newCur, call) => upLoop exec current rest newCur (calls ++ [call])
        | some (false, newCur, call) => (.err, newCur, calls ++ [call])
    else upLoop exec current rest cur calls

/-- `up` (`cmd.rs` lines 59–74).  `migration_files.keys().max().unwrap()`
panics when the collection is empty. -/
def up (exec : String → Nat → Bool) (current : Nat) (files : CmdMigrations) :
    RunOut :=
  match listMax (keysOf files) with
  | none => (.panicked, current, [])
  | some mx =>
    if current = mx then (.ok, current, [])
    else upLoop exec current files current []

/-- Descending insertion sort over numbers: the model of
`numbers.sort_by(|a, b| b.cmp(a))` in `down`. -/
def insertDesc (x : Nat) : List Nat → List Nat
  | [] => [x]
  | y :: ys => if y ≤ x then x :: y :: ys else y :: insertDesc x ys

/-- See `insertDesc`. -/
def sortDesc (l : List Nat) : List Nat := l.foldr insertDesc []

/-- The `for` loop of `down` (`cmd.rs` lines 86–90): look each number up
in the map (unwrap panics when absent), unwrap its down-side file, and run
it, stopping at the first failure. -/
def downLoop (exec : String → Nat → Bool) (files : CmdMigrations) :
    List Nat → Nat → List Call → RunOut
  | [], cur, calls => (.ok, cur, calls)
  | number :: rest, cur, calls =>
    match btFind files number with
    | none => (.panicked, cur, calls)
    | some migration =>
      match migration.down with
      | none => (.panicked, cur, calls)
      | some f =>
        match cmdMigrate exec cur f with
        | none => (.panicked, cur, calls)
        | some (true, newCur, call) => downLoop exec files rest newCur (calls ++ [call])
        | some (false, newCur, call) => (.err, newCur, calls ++ [call])

/-- `down` (`cmd.rs` lines 76–92): no-op success at version 0, otherwise
run the down scripts of all numbers `≤ current` in descending order. -/
def down (exec : String → Nat → Bool) (current : Nat) (files : CmdMigrations) :
    RunOut :=
  if current = 0 then (.ok, current, [])
  else
    let numbers := sortDesc ((keysOf files).filter fun k => k ≤ current)
    downLoop exec files numbers current []

/-- `redo` (`cmd.rs` lines 94–108): no-op success at version 0; otherwise
look up the migration at `current` (unwrap panics when absent), unwrap
both its files (in source order: down first, then up, both before any
driver call), then run down and, if it succeeded, up. -/
def redo (exec : String → Nat → Bool) (current : Nat) (files : CmdMigrations) :
    RunOut :=
  if current = 0 then (.ok, current, [])
  else
    match btFind files current with
    | none => (.panicked, current, [])
    | some migration =>
      match migration.down, migration.up with
      | some downF, some upF =>
        match cmdMigrate exec current downF with
        | none => (.panicked, current, [])
        | some (false, cur1, call1) => (.err, cur1, [call1])
        | some (true, cur1, call1) =>
          match cmdMigrate exec cur1 upF with
          | none => (.panicked, cur1, [call1])
          | some (false, cur2, call2) => (.err, cur2, [call1, call2])
          | some (true, cur2, call2) => (.ok, cur2, [call1, call2])
      | _, _ => (.panicked, current, [])

/-- `revert` (`cmd.rs` lines 111–122): no-op success at version 0;
otherwise run only the down script of the migration at `current`. -/
def revert (exec : String → Nat → Bool) (current : Nat) (files : CmdMigrations) :
    RunOut :=
  if current = 0 then (.ok, current, [])
  else
    match btFind files current with
    | none => (.panicked, current, [])
    | some migration =>
      match migration.down with
      | none => (.panicked, current, [])
      | some downF =>
        match cmdMigrate exec current downF with
        | none => (.panicked, current, [])
        | some (false, cur1, call1) => (.err, cur1, [call1])
        | some (true, cur1, call1) => (.ok, cur1, [call1])

/-- `create` (`cmd.rs` lines 29–39): the new number is
`keys().max().unwrap_or(0) + 1`; the files are made by
`create_migration`. -/
def create (files : CmdMigrations) (slug : String) : Option (List String) :=
  let current_number := (listMax (keysOf files)).getD 0
  create_migration slug (current_number + 1)

/-! ## Proof-side definitions: reference decimal digits, generated
collections and directories -/

/-- Reference recursive form of the decimal digit characters of `n`
(most-significant first); proved equal to `Nat.toDigits 10 n` below. -/
def digitsAux (n : Nat) : List Char :=
  if _h : n < 10 then [Nat.digitChar n]
  else digitsAux (n / 10) ++ [Nat.digitChar (n % 10)]
decreasing_by exact Nat.div_lt_self (by omega) (by omega)

/-- One well-formed controller map entry for number `k`: a migration
whose up-side and down-side files carry the given scripts and name and
the number itself, as the loader builds them. -/
def mkRow (upC dnC nmC : Nat → String) (k : Nat) : Nat × CmdMigration :=
  (k, ⟨some ⟨some (upC k), .Up, k, nmC k⟩, some ⟨some (dnC k), .Down, k, nmC k⟩⟩)

/-- A well-formed controller collection numbered `1..N`. -/
def mkMigrations (N : Nat) (upC dnC nmC : Nat → String) : CmdMigrations :=
  (List.range' 1 N).map (mkRow upC dnC nmC)

/-- Description of one migration number's files on disk: the number, then
optional `(name, content)` for the up side and for the down side. -/
abbrev DirRow := Nat × Option (String × String) × Option (String × String)

/-- The directory entries described by one `DirRow`: the up file (if
present) then the down file (if present), named by the canonical codec. -/
def rowEntries (r : DirRow) : List (String × String) :=
  (match r.2.1 with
   | some (nm, c) => [(MigrationFileName.toString ⟨r.1, nm, .Up⟩, c)]
   | none => []) ++
  (match r.2.2 with
   | some (nm, c) => [(MigrationFileName.toString ⟨r.1, nm, .Down⟩, c)]
   | none => [])

/-- The directory entry list described by a list of `DirRow`s. -/
def mkDirEntries (rows : List DirRow) : List (String × String) :=
  rows.flatMap rowEntries

/-- A `DirRow` whose number fits the codec, whose side names use only
name characters, and which has at least one side. -/
def RowOk (r : DirRow) : Prop :=
  r.1 ≤ 9999 ∧
  (∀ nm c, r.2.1 = some (nm, c) → ∀ ch ∈ nm.toList, validNameChar ch = true) ∧
  (∀ nm c, r.2.2 = some (nm, c) → ∀ ch ∈ nm.toList, validNameChar ch = true) ∧
  (r.2.1 ≠ none ∨ r.2.2 ≠ none)

/-- The grouped per-number record a `DirRow` should scan to. -/
def rowPair (r : DirRow) : Nat × UpDownPair :=
  (r.1, ⟨r.2.1.map fun p => ⟨p.1, p.2⟩, r.2.2.map fun p => ⟨p.1, p.2⟩⟩)

/-- 1-based position of the first sorted number that differs from its
1-based position (the claim's "first such i"). -/
def firstMismatch : List Nat → Nat → Option Nat
  | [], _ => none
  | k :: rest, i => if k ≠ i + 1 then some (i + 1) else firstMismatch rest (i + 1)

/-- Modelled from the spec: the pairing rule of §4.2 steps 4–5 as claim C7
words it — for each number in ascending order, fail with
`IncompleteMigrationPair(number)` if either side is absent, fail with
`NameMismatch(number, upName, downName)` if the side names differ, and
only otherwise emit the migration.  Used as the specification side of the
refinement statement for C7. -/
def pairingSpec : List DirRow → Migrations → Except LoadError Migrations
  | [], acc => .ok acc
  | (k, upSide, downSide) :: rest, acc =>
    match upSide, downSide with
    | some (un, uc), some (dn, dc) =>
      if un ≠ dn then .error (.NameMismatch k un dn)
      else pairingSpec rest (acc ++ [(k, ⟨uc, dc, un⟩)])
    | _, _ => .error (.IncompleteMigrationPair k)

end Dbmigrate

namespace Dbmigrate

/-- Mirrors the repo's unit test `test_parse_good_filename`. -/
theorem parse_good_filename :
    MigrationFileName.parse "0001.tests.up.sql" = some ⟨1, "tests", .Up⟩ := by
  decide

/-- Mirrors the repo's unit test `test_parse_bad_filename_format`. -/
theorem parse_bad_filename :
    MigrationFileName.parse "0001_tests.up.sql" = none := by
  decide

/-- Mirrors the repo's unit test `test_migration_filename_to_string`. -/
theorem to_string_example :
    MigrationFileName.toString ⟨1, "initial", .Up⟩ = "0001.initial.up.sql" := by
  decide

/-! ### Decimal formatting -/

theorem digitsAux_small {n : Nat} (h : n < 10) :
    digitsAux n = [Nat.digitChar n] := by
  rw [digitsAux]
  simp [h]

theorem digitsAux_big {n : Nat} (h : 10 ≤ n) :
    digitsAux n = digitsAux (n / 10) ++ [Nat.digitChar (n % 10)] := by
  rw [digitsAux]
  simp [show ¬ n < 10 by omega]

theorem toDigitsCore_eq :
    ∀ (fuel n : Nat) (acc : List Char), n < fuel →
      Nat.toDigitsCore 10 fuel n acc = digitsAux n ++ acc := by
  intro fuel
  induction fuel with
  | zero => intro n acc h; omega
  | succ f ih =>
    intro n acc h
    rw [Nat.toDigitsCore]
    by_cases h10 : n / 10 = 0
    · rw [if_pos h10, digitsAux_small (by omega), Nat.mod_eq_of_lt (by omega)]
      rfl
    · have hlt : n / 10 < f := by omega
      rw [if_neg h10, ih (n / 10) (Nat.digitChar (n % 10) :: acc) hlt,
        show digitsAux n = digitsAux (n / 10) ++ [Nat.digitChar (n % 10)] from
          digitsAux_big (by omega),
        List.append_assoc]
      rfl

theorem toDigits_eq (n : Nat) : Nat.toDigits 10 n = digitsAux n := by
  rw [Nat.toDigits, toDigitsCore_eq (n + 1) n [] (by omega), List.append_nil]

theorem digitVal_digitChar {d : Nat} (h : d < 10) :
    digitVal (Nat.digitChar d) = d := by
  interval_cases d <;> decide

theorem isDigitChar_digitChar {d : Nat} (h : d < 10) :
    isDigitChar (Nat.digitChar d) = true := by
  interval_cases d <;> decide

theorem pad4_eq {n : Nat} (h : n < 10000) :
    pad4 n = [Nat.digitChar (n / 1000), Nat.digitChar (n / 100 % 10),
      Nat.digitChar (n / 10 % 10), Nat.digitChar (n % 10)] := by
  have e1 : digitsAux n = [Nat.digitChar (n / 1000), Nat.digitChar (n / 100 % 10),
      Nat.digitChar (n / 10 % 10), Nat.digitChar (n % 10)] ∨
      (digitsAux n).length ≤ 4 ∧
        List.replicate (4 - (digitsAux n).length) '0' ++ digitsAux n =
          [Nat.digitChar (n / 1000), Nat.digitChar (n / 100 % 10),
            Nat.digitChar (n / 10 % 10), Nat.digitChar (n % 10)] := by
    right
    by_cases c1 : n < 10
    · rw [digitsAux_small c1]
      have d1 : n / 1000 = 0 := by omega
      have d2 : n / 100 % 10 = 0 := by omega
      have d3 : n / 10 % 10 = 0 := by omega
      have d4 : n % 10 = n := by omega
      rw [d1, d2, d3, d4]
      exact ⟨by simp, rfl⟩
    · by_cases c2 : n < 100
      · rw [digitsAux_big (by omega), digitsAux_small (by omega)]
        have d1 : n / 1000 = 0 := by omega
        have d2 : n / 100 % 10 = 0 := by omega
        have d3 : n / 10 % 10 = n / 10 := by omega
        rw [d1, d2, d3]
        exact ⟨by simp, rfl⟩
      · by_cases c3 : n < 1000
        · rw [digitsAux_big (by omega), digitsAux_big (show 10 ≤ n / 10 by omega),
            digitsAux_small (show n / 10 / 10 < 10 by omega)]
          have d1 : n / 1000 = 0 := by omega
          have d2 : n / 10 / 10 = n / 100 % 10 := by omega
          have d3 : n / 10 % 10 = n / 10 % 10 := rfl
          rw [d1, d2]
          exact ⟨by simp, rfl⟩
        · rw [digitsAux_big (by omega), digitsAux_big (show 10 ≤ n / 10 by omega),
            digitsAux_big (show 10 ≤ n / 10 / 10 by omega),
            digitsAux_small (show n / 10 / 10 / 10 < 10 by omega)]
          have d1 : n / 10 / 10 / 10 = n / 1000 := by omega
          have d2 : n / 10 / 10 % 10 = n / 100 % 10 := by omega
          rw [d1, d2]
          exact ⟨by simp, rfl⟩
  rw [pad4, toDigits_eq]
  rcases e1 with e1 | ⟨_, e2⟩
  · rw [e1]
    rfl
  · exact e2

/-! ### Parsing -/

theorem validNameChar_ne_dot {c : Char} (h : validNameChar c = true) :
    ¬ c = '.' := by
  intro e
  subst e
  exact absurd h (by decide)

theorem toList_mk (l : List Char) : (String.mk l).toList = l := rfl

theorem mk_toList (s : String) : String.mk s.toList = s := rfl

theorem parseName_append {nm rest : List Char}
    (h : ∀ c ∈ nm, validNameChar c = true) :
    parseName (nm ++ '.' :: rest) = some (nm, rest) := by
  induction nm with
  | nil => simp [parseName]
  | cons c cs ih =>
    have hc : validNameChar c = true := h c (by simp)
    have hcd : ¬ c = '.' := validNameChar_ne_dot hc
    simp only [List.cons_append, parseName, if_neg hcd, if_pos hc,
      List.append_eq]
    rw [ih fun x hx => h x (by simp [hx])]

theorem parseChars_spec {n : Nat} (hn : n < 10000) {nm : List Char}
    (hnm : ∀ c ∈ nm, validNameChar c = true) (rest : List Char) :
    parseChars (pad4 n ++ '.' :: (nm ++ '.' :: rest)) =
      (if rest == "up.sql".toList then some ⟨n, String.mk nm, .Up⟩
       else if rest == "down.sql".toList then some ⟨n, String.mk nm, .Down⟩
       else none) := by
  rw [pad4_eq hn]
  simp only [List.cons_append, List.nil_append]
  rw [parseChars]
  rw [isDigitChar_digitChar (show n / 1000 < 10 by omega),
    isDigitChar_digitChar (show n / 100 % 10 < 10 by omega),
    isDigitChar_digitChar (show n / 10 % 10 < 10 by omega),
    isDigitChar_digitChar (show n % 10 < 10 by omega)]
  simp only [Bool.true_and, beq_self_eq_true, Bool.and_true, if_true]
  rw [parseName_append hnm]
  have hv : ((digitVal (Nat.digitChar (n / 1000)) * 10 +
      digitVal (Nat.digitChar (n / 100 % 10))) * 10 +
      digitVal (Nat.digitChar (n / 10 % 10))) * 10 +
      digitVal (Nat.digitChar (n % 10)) = n := by
    rw [digitVal_digitChar (show n / 1000 < 10 by omega),
      digitVal_digitChar (show n / 100 % 10 < 10 by omega),
      digitVal_digitChar (show n / 10 % 10 < 10 by omega),
      digitVal_digitChar (show n % 10 < 10 by omega)]
    omega
  simp only [hv]

/-- Round trip of the codec: any filename printed by `to_string` from a
number below 10000 and a name in the regex's character class is parsed
back to the same value. -/
theorem parse_to_string_roundtrip (m : MigrationFileName)
    (hnum : m.number < 10000)
    (hname : ∀ c ∈ m.name.toList, validNameChar c = true) :
    MigrationFileName.parse m.toString = some m := by
  obtain ⟨n, nm, d⟩ := m
  rw [MigrationFileName.parse, MigrationFileName.toString, toList_mk,
    MigrationFileName.toChars]
  have e : pad4 n ++ '.' :: nm.toList ++ '.' :: d.str.toList
        ++ ['.', 's', 'q', 'l'] =
      pad4 n ++ '.' :: (nm.toList ++ '.' :: (d.str.toList ++ ['.', 's', 'q', 'l'])) := by
    simp [List.cons_append, List.append_assoc]
  rw [e, parseChars_spec hnum hname]
  cases d
  · rw [if_pos (by decide), mk_toList]
  · rw [if_neg (by decide), if_pos (by decide), mk_toList]

theorem digitsAux_length_pos (n : Nat) : 0 < (digitsAux n).length := by
  rw [digitsAux]
  split <;> simp

theorem digitsAux_isDigit : ∀ n : Nat, ∀ c ∈ digitsAux n, isDigitChar c = true := by
  intro n
  induction n using Nat.strong_induction_on with
  | _ n ih =>
    intro c hc
    by_cases h : n < 10
    · rw [digitsAux_small h] at hc
      simp at hc
      subst hc
      exact isDigitChar_digitChar h
    · rw [digitsAux_big (by omega)] at hc
      rcases List.mem_append.1 hc with h1 | h2
      · exact ih (n / 10) (by omega) c h1
      · simp at h2
        subst h2
        exact isDigitChar_digitChar (by omega)

theorem digitsAux_len5 {n : Nat} (h : 10000 ≤ n) : 5 ≤ (digitsAux n).length := by
  rw [digitsAux_big (by omega),
    digitsAux_big (show 10 ≤ n / 10 by omega),
    digitsAux_big (show 10 ≤ n / 10 / 10 by omega),
    digitsAux_big (show 10 ≤ n / 10 / 10 / 10 by omega)]
  have := digitsAux_length_pos (n / 10 / 10 / 10 / 10)
  simp only [List.length_append, List.length_cons, List.length_nil]
  omega

/-! ### Claims C4 and C5: the codec round trip -/

/-- **C4**: for every `MigrationFileName` whose number lies in `[0, 9999]`
and whose name consists only of `[A-Za-z0-9_]` characters (possibly
empty), `parse (to_string x)` succeeds and returns `x` itself. -/
theorem C4_parse_format_roundtrip (m : MigrationFileName)
    (hnum : m.number ≤ 9999)
    (hname : ∀ c ∈ m.name.toList, validNameChar c = true) :
    MigrationFileName.parse m.toString = some m :=
  parse_to_string_roundtrip m (by omega) hname

/-- Witness for C4 at number 0 with an empty name. -/
theorem C4_parse_format_roundtrip_witness :
    MigrationFileName.parse (MigrationFileName.toString ⟨0, "", .Up⟩) =
      some ⟨0, "", .Up⟩ :=
  C4_parse_format_roundtrip ⟨0, "", .Up⟩ (by decide) (by decide)

/-- **C5, counterexample**: at number 10000 the formatter emits five
digits, but `parse` rejects the formatted string (the regex requires
exactly four digits), so the round trip does *not* recover the numeric
value as the claim states. -/
theorem C5_counterexample :
    MigrationFileName.toString ⟨10000, "a", .Up⟩ = "10000.a.up.sql" ∧
    MigrationFileName.parse "10000.a.up.sql" = none := by
  decide

/-- **C5, amended**: for every `MigrationFileName` whose number is at
least 10000, formatting emits the full decimal digit string (more than
four digits, no padding), and parsing the formatted string *fails* with
`InvalidFilename` (`none`): the number is not recovered, and the round
trip fails loudly rather than truncating. -/
theorem C5_overflow_format_parse_fails (m : MigrationFileName)
    (h : 10000 ≤ m.number) :
    pad4 m.number = Nat.toDigits 10 m.number ∧
    5 ≤ (Nat.toDigits 10 m.number).length ∧
    MigrationFileName.parse m.toString = none := by
  have hlen5 : 5 ≤ (digitsAux m.number).length := digitsAux_len5 h
  refine ⟨?_, ?_, ?_⟩
  · rw [pad4, toDigits_eq, show 4 - (digitsAux m.number).length = 0 by omega]
    simp
  · rw [toDigits_eq]
    exact hlen5
  · rw [MigrationFileName.parse, MigrationFileName.toString, toList_mk,
      MigrationFileName.toChars, pad4, toDigits_eq,
      show 4 - (digitsAux m.number).length = 0 by omega]
    rcases e : digitsAux m.number with _ | ⟨c1, _ | ⟨c2, _ | ⟨c3, _ | ⟨c4, _ | ⟨c5, t⟩⟩⟩⟩⟩ <;>
      rw [e] at hlen5 <;> simp at hlen5
    have hc5 : isDigitChar c5 = true := digitsAux_isDigit _ c5 (by rw [e]; simp)
    have hc5d : (c5 == '.') = false := by
      refine beq_eq_false_iff_ne.2 fun eq => ?_
      rw [eq] at hc5
      exact absurd hc5 (by decide)
    simp only [List.replicate, List.nil_append, List.cons_append, List.append_eq]
    rw [parseChars]
    simp [hc5d]

/-- Witness for C5's amended theorem at number 10000. -/
theorem C5_overflow_format_parse_fails_witness :
    pad4 (10000 : Nat) = Nat.toDigits 10 10000 ∧
    5 ≤ (Nat.toDigits 10 10000).length ∧
    MigrationFileName.parse (MigrationFileName.toString ⟨10000, "a", .Down⟩) = none :=
  C5_overflow_format_parse_fails ⟨10000, "a", .Down⟩ (by decide)

/-! ### Controller helper lemmas -/

theorem mem_range'_bounds {k s n : Nat} (h : k ∈ List.range' s n) :
    s ≤ k ∧ k < s + n := by
  rw [List.mem_range'] at h
  obtain ⟨i, hi, rfl⟩ := h
  omega

theorem keysOf_map_mkRow (u d nm : Nat → String) (l : List Nat) :
    keysOf (l.map (mkRow u d nm)) = l := by
  simp [keysOf, mkRow, List.map_map, Function.comp_def]

theorem listMax_range' (N : Nat) :
    listMax (List.range' 1 N) = if N = 0 then none else some N := by
  induction N with
  | zero => rfl
  | succ n ih =>
    have e : listMax (List.range' 1 (n + 1)) =
        match listMax (List.range' 1 n) with
        | none => some (1 + n)
        | some m => some (Nat.max m (1 + n)) := by
      rw [List.range'_1_concat, listMax, List.foldl_append, listMax]
      rfl
    rw [e, ih]
    by_cases h : n = 0
    · subst h
      simp
    · rw [if_neg h, if_neg (by omega)]
      simp only [Option.some.injEq]
      show max n (1 + n) = n + 1
      omega

theorem btFind_map_mkRow (u d nm : Nat → String) :
    ∀ (len s k : Nat),
      btFind ((List.range' s len).map (mkRow u d nm)) k =
        if s ≤ k ∧ k < s + len then some (mkRow u d nm k).2 else none := by
  intro len
  induction len with
  | zero =>
    intro s k
    rw [if_neg (by omega)]
    rfl
  | succ n ih =>
    intro s k
    rw [List.range'_succ]
    simp only [List.map_cons, mkRow, btFind]
    by_cases hk : k = s
    · subst hk
      rw [if_pos rfl, if_pos (by omega)]
    · rw [if_neg hk]
      have e : btFind ((List.range' (s + 1) n).map (mkRow u d nm)) k =
          if s + 1 ≤ k ∧ k < s + 1 + n then some (mkRow u d nm k).2 else none :=
        ih (s + 1) k
      simp only [mkRow] at e
      rw [e]
      by_cases h2 : s + 1 ≤ k ∧ k < s + 1 + n
      · rw [if_pos h2, if_pos (by omega)]
      · rw [if_neg h2, if_neg (by omega)]

theorem upLoop_skip (exec : String → Nat → Bool) (cu : Nat) :
    ∀ (l1 : CmdMigrations), (∀ p ∈ l1, ¬ cu < p.1) →
      ∀ (l2 : CmdMigrations) (cur : Nat) (calls : List Call),
        upLoop exec cu (l1 ++ l2) cur calls = upLoop exec cu l2 cur calls := by
  intro l1
  induction l1 with
  | nil => intro _ l2 cur calls; rfl
  | cons p rest ih =>
    intro h l2 cur calls
    obtain ⟨k, mig⟩ := p
    rw [List.cons_append, upLoop, if_neg (h (k, mig) (by simp))]
    exact ih (fun q hq => h q (by simp [hq])) l2 cur calls

theorem upLoop_run (exec : String → Nat → Bool) (cu : Nat)
    (u d nm : Nat → String) (hexec : ∀ s n, exec s n = true) :
    ∀ (len s cur : Nat) (calls : List Call), cu < s →
      upLoop exec cu ((List.range' s len).map (mkRow u d nm)) cur calls =
        (.ok, if len = 0 then cur else s + len - 1,
          calls ++ (List.range' s len).map fun k => ⟨u k, k⟩) := by
  intro len
  induction len with
  | zero =>
    intro s cur calls _
    simp [upLoop]
  | succ n ih =>
    intro s cur calls hs
    rw [List.range'_succ]
    simp only [List.map_cons, mkRow, upLoop, if_pos hs, cmdMigrate, hexec,
      if_pos trivial]
    rw [ih (s + 1) s (calls ++ [Call.mk (u s) s]) (by omega)]
    rw [if_neg (show ¬ n + 1 = 0 by omega)]
    by_cases hn : n = 0
    · subst hn
      simp
    · rw [if_neg hn, show s + 1 + n - 1 = s + (n + 1) - 1 by omega]
      simp [List.append_assoc]

/-! ### Claim C1: `up` runs all pending migrations in ascending order -/

/-- **C1**: for migrations numbered `1..N` (`N ≥ 1`) and `current < N`,
`up()` issues exactly one `Driver::migrate` call per migration with
number greater than `current`, in ascending order, passing the up script
and a resulting version equal to the migration's number; when every call
succeeds the version register ends at `N`. -/
theorem C1_up_applies_pending_ascending (N current : Nat)
    (upC dnC nmC : Nat → String) (exec : String → Nat → Bool)
    (hN : 1 ≤ N) (hcur : current < N) (hexec : ∀ s n, exec s n = true) :
    up exec current (mkMigrations N upC dnC nmC) =
      (.ok, N, (List.range' (current + 1) (N - current)).map fun k => ⟨upC k, k⟩) := by
  have hmax : listMax (keysOf (mkMigrations N upC dnC nmC)) = some N := by
    rw [mkMigrations, keysOf_map_mkRow, listMax_range', if_neg (by omega)]
  rw [up, hmax]
  simp only []
  rw [if_neg (by omega), mkMigrations]
  have hsplit : List.range' 1 N =
      List.range' 1 current ++ List.range' (1 + current) (N - current) := by
    rw [List.range'_append_1]
    congr 1
    omega
  rw [hsplit, List.map_append,
    upLoop_skip exec current _
      (fun p hp => by
        obtain ⟨q, hq, rfl⟩ := List.mem_map.1 hp
        have := mem_range'_bounds hq
        simp only [mkRow]
        omega),
    show (1 + current) = current + 1 by omega,
    upLoop_run exec current upC dnC nmC hexec (N - current) (current + 1) current []
      (by omega)]
  rw [if_neg (by omega)]
  simp only [List.nil_append, Prod.mk.injEq, true_and, and_true]
  omega

/-- Witness for C1: three migrations, starting from version 0. -/
theorem C1_up_applies_pending_ascending_witness :
    up (fun _ _ => true) 0
        (mkMigrations 3 (fun k => s!"u{k}") (fun k => s!"d{k}") fun k => s!"n{k}") =
      (.ok, 3, (List.range' 1 3).map fun k => ⟨s!"u{k}", k⟩) :=
  C1_up_applies_pending_ascending 3 0 _ _ _ (fun _ _ => true) (by decide) (by decide)
    fun _ _ => rfl

/-! ### Claim C6: `up` when the register already equals the maximum -/

/-- **C6, counterexample**: on the empty collection (`N = 0`, the loader's
result for an empty directory) with the register at 0 (= `N`), `up` does
*not* return success: `keys().max().unwrap()` panics, contradicting the
claim's "including N = 0". -/
theorem C6_counterexample :
    up (fun _ _ => true) 0 ([] : CmdMigrations) = (.panicked, 0, []) ∧
    up (fun _ _ => true) 0 ([] : CmdMigrations) ≠ (.ok, 0, []) := by
  decide

/-- **C6, amended**: for every collection numbered `1..N` with `N ≥ 1`,
when the register equals `N`, `up()` succeeds without any `migrate` call
and leaves the register unchanged; for `N = 0` the claim fails (`up`
panics on the `max().unwrap()` of an empty key set, see the
counterexample). -/
theorem C6_up_noop_at_max (N : Nat) (upC dnC nmC : Nat → String)
    (exec : String → Nat → Bool) (hN : 1 ≤ N) :
    up exec N (mkMigrations N upC dnC nmC) = (.ok, N, []) := by
  have hmax : listMax (keysOf (mkMigrations N upC dnC nmC)) = some N := by
    rw [mkMigrations, keysOf_map_mkRow, listMax_range', if_neg (by omega)]
  rw [up, hmax]
  simp only []
  rw [if_pos trivial]

/-- Witness for C6's amended theorem at `N = 2`. -/
theorem C6_up_noop_at_max_witness :
    up (fun _ _ => true) 2
        (mkMigrations 2 (fun _ => "u") (fun _ => "d") fun _ => "n") =
      (.ok, 2, []) :=
  C6_up_noop_at_max 2 _ _ _ (fun _ _ => true) (by decide)

/-! ### Claim C2: `down` runs applied migrations in descending order -/

theorem filter_range'_le {N cu : Nat} (hcu : cu ≤ N) :
    (List.range' 1 N).filter (fun k => decide (k ≤ cu)) = List.range' 1 cu := by
  have hsplit : List.range' 1 N =
      List.range' 1 cu ++ List.range' (1 + cu) (N - cu) := by
    rw [List.range'_append_1]
    congr 1
    omega
  rw [hsplit, List.filter_append]
  have h1 : (List.range' 1 cu).filter (fun k => decide (k ≤ cu)) =
      List.range' 1 cu :=
    List.filter_eq_self.2 fun a ha => by
      have := mem_range'_bounds ha
      simp
      omega
  have h2 : (List.range' (1 + cu) (N - cu)).filter (fun k => decide (k ≤ cu)) =
      [] :=
    List.filter_eq_nil_iff.2 fun a ha => by
      have := mem_range'_bounds ha
      simp
      omega
  rw [h1, h2, List.append_nil]

theorem insertDesc_small {x : Nat} :
    ∀ (l : List Nat), (∀ y ∈ l, x < y) → insertDesc x l = l ++ [x] := by
  intro l
  induction l with
  | nil => intro _; rfl
  | cons y ys ih =>
    intro h
    rw [insertDesc, if_neg (by have := h y (by simp); omega)]
    rw [ih fun z hz => h z (by simp [hz])]
    rfl

theorem sortDesc_range'_rev : ∀ (len s : Nat),
    sortDesc (List.range' s len) = (List.range' s len).reverse := by
  intro len
  induction len with
  | zero => intro s; rfl
  | succ n ih =>
    intro s
    rw [List.range'_succ]
    have e : sortDesc (s :: List.range' (s + 1) n) =
        insertDesc s (sortDesc (List.range' (s + 1) n)) := rfl
    rw [e, ih (s + 1),
      insertDesc_small _ fun y hy => by
        have := mem_range'_bounds (List.mem_reverse.1 hy)
        omega,
      List.reverse_cons]

theorem downLoop_run (exec : String → Nat → Bool) (u d nm : Nat → String)
    (N : Nat) (hexec : ∀ s n, exec s n = true) :
    ∀ (c cur : Nat) (calls : List Call), c ≤ N →
      downLoop exec (mkMigrations N u d nm) ((List.range' 1 c).reverse) cur calls =
        (.ok, if c = 0 then cur else 0,
          calls ++ (List.range' 1 c).reverse.map fun k => ⟨d k, k - 1⟩) := by
  intro c
  induction c with
  | zero => intro cur calls _; simp [downLoop]
  | succ m ih =>
    intro cur calls hc
    rw [List.range'_1_concat, List.reverse_append]
    simp only [List.reverse_cons, List.reverse_nil, List.nil_append,
      List.cons_append, List.map_cons]
    have hfind : btFind (mkMigrations N u d nm) (1 + m) =
        some (mkRow u d nm (1 + m)).2 := by
      rw [mkMigrations, btFind_map_mkRow]
      rw [if_pos (by omega)]
    rw [downLoop, hfind]
    simp only [mkRow, cmdMigrate, hexec, if_pos trivial]
    rw [show 1 + m - 1 = m by omega]
    rw [ih m (calls ++ [Call.mk (d (1 + m)) m]) (by omega)]
    rw [if_neg (show ¬ m + 1 = 0 by omega)]
    by_cases hm : m = 0
    · subst hm
      simp
    · rw [if_neg hm]
      simp [List.append_assoc]

/-- **C2**: for migrations numbered `1..N` and `0 < current ≤ N`, `down()`
issues exactly one `Driver::migrate` call per migration with number at
most `current`, in descending order, passing the down script and a
resulting version of `number - 1`; when every call succeeds the register
ends at 0.  When `current = 0`, `down()` is a no-op success. -/
theorem C2_down_applies_descending (N current : Nat)
    (upC dnC nmC : Nat → String) (exec : String → Nat → Bool)
    (hcur : current ≤ N) (hexec : ∀ s n, exec s n = true) :
    (0 < current →
      down exec current (mkMigrations N upC dnC nmC) =
        (.ok, 0, (List.range' 1 current).reverse.map fun k => ⟨dnC k, k - 1⟩)) ∧
    down exec 0 (mkMigrations N upC dnC nmC) = (.ok, 0, []) := by
  constructor
  · intro hpos
    rw [down, if_neg (by omega)]
    simp only []
    rw [show keysOf (mkMigrations N upC dnC nmC) = List.range' 1 N from by
        rw [mkMigrations, keysOf_map_mkRow],
      filter_range'_le hcur, sortDesc_range'_rev,
      downLoop_run exec upC dnC nmC N hexec current current [] hcur,
      if_neg (by omega)]
    simp
  · rw [down, if_pos rfl]

/-- Witness for C2 with three migrations, starting from version 3. -/
theorem C2_down_applies_descending_witness :
    down (fun _ _ => true) 3
        (mkMigrations 3 (fun k => s!"u{k}") (fun k => s!"d{k}") fun k => s!"n{k}") =
      (.ok, 0, (List.range' 1 3).reverse.map fun k => ⟨s!"d{k}", k - 1⟩) :=
  (C2_down_applies_descending 3 3 _ _ _ (fun _ _ => true) (by decide)
    fun _ _ => rfl).1 (by decide)

/-! ### Claim C8: `redo` is down-then-up at the current migration -/

/-- **C8**: for migrations numbered `1..N` and `0 < current ≤ N`, `redo()`
first calls `migrate` with the down script of migration `current` and
resulting version `current - 1`; only if that succeeds does it call
`migrate` with the same migration's up script and resulting version
`current`, so after full success the register equals the original
`current`.  When `current = 0`, `redo()` is a no-op success. -/
theorem C8_redo_down_then_up (N current : Nat) (upC dnC nmC : Nat → String)
    (exec : String → Nat → Bool) (hpos : 0 < current) (hcur : current ≤ N) :
    ((∀ s n, exec s n = true) →
      redo exec current (mkMigrations N upC dnC nmC) =
        (.ok, current, [⟨dnC current, current - 1⟩, ⟨upC current, current⟩])) ∧
    (exec (dnC current) (current - 1) = false →
      redo exec current (mkMigrations N upC dnC nmC) =
        (.err, current, [⟨dnC current, current - 1⟩])) ∧
    redo exec 0 (mkMigrations N upC dnC nmC) = (.ok, 0, []) := by
  have hfind : btFind (mkMigrations N upC dnC nmC) current =
      some ⟨some ⟨some (upC current), .Up, current, nmC current⟩,
            some ⟨some (dnC current), .Down, current, nmC current⟩⟩ := by
    rw [mkMigrations, btFind_map_mkRow, if_pos (by omega)]
    rfl
  refine ⟨?_, ?_, ?_⟩
  · intro hexec
    rw [redo, if_neg (by omega), hfind]
    simp only [cmdMigrate, hexec, if_pos trivial]
  · intro hfail
    rw [redo, if_neg (by omega), hfind]
    simp [cmdMigrate, hfail]
  · rw [redo, if_pos rfl]

/-- Witness for C8 at `current = 2` of three migrations. -/
theorem C8_redo_down_then_up_witness :
    redo (fun _ _ => true) 2
        (mkMigrations 3 (fun k => s!"u{k}") (fun k => s!"d{k}") fun k => s!"n{k}") =
      (.ok, 2, [⟨"d2", 1⟩, ⟨"u2", 2⟩]) :=
  (C8_redo_down_then_up 3 2 _ _ _ (fun _ _ => true) (by decide) (by decide)).1
    fun _ _ => rfl

/-! ### Claim C10: the unchecked lookups of `redo` and `revert` -/

/-- **C10**: for migrations numbered `1..N`, whenever `1 ≤ current ≤ N`
the unchecked `get(&current).unwrap()` of `redo()` and `revert()`
succeeds and neither command can panic (for any driver behaviour); when
`current > N` both commands panic on that lookup instead of returning a
structured failure. -/
theorem C10_unchecked_lookup (N current : Nat) (upC dnC nmC : Nat → String) :
    (1 ≤ current → current ≤ N →
      btFind (mkMigrations N upC dnC nmC) current =
          some (mkRow upC dnC nmC current).2 ∧
      ∀ exec : String → Nat → Bool,
        (redo exec current (mkMigrations N upC dnC nmC)).1 ≠ .panicked ∧
        (revert exec current (mkMigrations N upC dnC nmC)).1 ≠ .panicked) ∧
    (N < current → ∀ exec : String → Nat → Bool,
      redo exec current (mkMigrations N upC dnC nmC) = (.panicked, current, []) ∧
      revert exec current (mkMigrations N upC dnC nmC) = (.panicked, current, [])) := by
  constructor
  · intro h1 h2
    have hfind : btFind (mkMigrations N upC dnC nmC) current =
        some ⟨some ⟨some (upC current), .Up, current, nmC current⟩,
              some ⟨some (dnC current), .Down, current, nmC current⟩⟩ := by
      rw [mkMigrations, btFind_map_mkRow, if_pos (by omega)]
      rfl
    refine ⟨by rw [hfind]; rfl, ?_⟩
    intro exec
    constructor
    · rw [redo, if_neg (by omega), hfind]
      cases hx : exec (dnC current) (current - 1)
      · simp [cmdMigrate, hx]
      · cases hy : exec (upC current) current <;> simp [cmdMigrate, hx, hy]
    · rw [revert, if_neg (by omega), hfind]
      cases hx : exec (dnC current) (current - 1) <;> simp [cmdMigrate, hx]
  · intro hgt exec
    have hnone : btFind (mkMigrations N upC dnC nmC) current = none := by
      rw [mkMigrations, btFind_map_mkRow, if_neg (by omega)]
    exact ⟨by rw [redo, if_neg (by omega), hnone], by
      rw [revert, if_neg (by omega), hnone]⟩

/-- Witness for C10: lookup succeeds and neither command panics at
`current = 2` of three migrations; both panic at `current = 5`. -/
theorem C10_unchecked_lookup_witness :
    btFind (mkMigrations 3 (fun _ => "u") (fun _ => "d") fun _ => "n") 2 =
        some (mkRow (fun _ => "u") (fun _ => "d") (fun _ => "n") 2).2 ∧
    (redo (fun _ _ => false) 2
        (mkMigrations 3 (fun _ => "u") (fun _ => "d") fun _ => "n")).1 ≠ .panicked ∧
    redo (fun _ _ => false) 5
        (mkMigrations 3 (fun _ => "u") (fun _ => "d") fun _ => "n") =
      (.panicked, 5, []) := by
  have h := C10_unchecked_lookup 3 2 (fun _ => "u") (fun _ => "d") fun _ => "n"
  have h5 := C10_unchecked_lookup 3 5 (fun _ => "u") (fun _ => "d") fun _ => "n"
  exact ⟨(h.1 (by decide) (by decide)).1,
    ((h.1 (by decide) (by decide)).2 fun _ _ => false).1,
    (h5.2 (by decide) fun _ _ => false).1⟩

/-! ### Claim C9: `create` allocates max+1 and writes one up and one down
file -/

/-- **C9**: for every existing collection, `create` computes the new
number as the maximum existing number plus one (1 when empty), replaces
every space of the slug by an underscore, and creates exactly two files —
one up and one down — named with that number and sanitized slug.  (The
self-check re-parse requires the sanitized slug to use only name
characters and the new number to stay below 10000.) -/
theorem C9_create_allocates_next (files : CmdMigrations) (slug : String)
    (hn : (listMax (keysOf files)).getD 0 + 1 ≤ 9999)
    (hslug : ∀ c ∈ slug.toList.map (fun c => if c = ' ' then '_' else c),
      validNameChar c = true) :
    create files slug =
      some [MigrationFileName.toString
              ⟨(listMax (keysOf files)).getD 0 + 1,
               String.mk (slug.toList.map fun c => if c = ' ' then '_' else c), .Up⟩,
            MigrationFileName.toString
              ⟨(listMax (keysOf files)).getD 0 + 1,
               String.mk (slug.toList.map fun c => if c = ' ' then '_' else c), .Down⟩] := by
  have hname : ∀ c ∈ (String.mk (slug.toList.map fun c => if c = ' ' then '_' else c)).toList,
      validNameChar c = true := by
    rw [toList_mk]
    exact hslug
  rw [create]
  simp only [create_migration]
  rw [Nat.mod_eq_of_lt (show (listMax (keysOf files)).getD 0 + 1 < 65536 by omega)]
  rw [parse_to_string_roundtrip _
    (show (listMax (keysOf files)).getD 0 + 1 < 10000 by omega) hname]
  simp only []
  rw [parse_to_string_roundtrip _
    (show (listMax (keysOf files)).getD 0 + 1 < 10000 by omega) hname]

/-- Witness for C9: collection with numbers `{1, 2}` and slug `"a b"`
allocate number 3 with name `a_b`. -/
theorem C9_create_allocates_next_witness :
    create [(1, ⟨none, none⟩), (2, ⟨none, none⟩)] "a b" =
      some [MigrationFileName.toString
              ⟨(listMax (keysOf
                  ([(1, ⟨none, none⟩), (2, ⟨none, none⟩)] : CmdMigrations))).getD 0 + 1,
               String.mk ("a b".toList.map fun c => if c = ' ' then '_' else c), .Up⟩,
            MigrationFileName.toString
              ⟨(listMax (keysOf
                  ([(1, ⟨none, none⟩), (2, ⟨none, none⟩)] : CmdMigrations))).getD 0 + 1,
               String.mk ("a b".toList.map fun c => if c = ' ' then '_' else c), .Down⟩] :=
  C9_create_allocates_next [(1, ⟨none, none⟩), (2, ⟨none, none⟩)] "a b"
    (by decide) (by decide)

/-! ### Loader lemmas: the scan pass on a described directory -/

theorem btFind_none_of_lt {α : Type} :
    ∀ (l : List (Nat × α)) (k : Nat), (∀ p ∈ l, p.1 < k) →
      btFind l k = none := by
  intro l
  induction l with
  | nil => intro k _; rfl
  | cons p rest ih =>
    intro k h
    obtain ⟨k', v'⟩ := p
    rw [btFind, if_neg (by have := h (k', v') (by simp); simp at this; omega)]
    exact ih k fun q hq => h q (by simp [hq])

theorem btInsert_append {α : Type} :
    ∀ (l : List (Nat × α)) (k : Nat) (v : α), (∀ p ∈ l, p.1 < k) →
      btInsert l k v = l ++ [(k, v)] := by
  intro l
  induction l with
  | nil => intro k v _; rfl
  | cons p rest ih =>
    intro k v h
    obtain ⟨k', v'⟩ := p
    have hk : k' < k := by have := h (k', v') (by simp); simpa using this
    rw [btInsert, if_neg (by omega), if_neg (by omega), List.cons_append,
      ih k v fun q hq => h q (by simp [hq])]

theorem btFind_append_self {α : Type} :
    ∀ (l : List (Nat × α)) (k : Nat) (v : α), (∀ p ∈ l, p.1 < k) →
      btFind (l ++ [(k, v)]) k = some v := by
  intro l
  induction l with
  | nil => intro k v _; simp [btFind]
  | cons p rest ih =>
    intro k v h
    obtain ⟨k', v'⟩ := p
    rw [List.cons_append, btFind,
      if_neg (by have := h (k', v') (by simp); simp at this; omega)]
    exact ih k v fun q hq => h q (by simp [hq])

theorem btInsert_replace_last {α : Type} :
    ∀ (l : List (Nat × α)) (k : Nat) (v v' : α), (∀ p ∈ l, p.1 < k) →
      btInsert (l ++ [(k, v)]) k v' = l ++ [(k, v')] := by
  intro l
  induction l with
  | nil =>
    intro k v v' _
    simp only [List.nil_append, btInsert]
    rw [if_neg (by omega), if_pos trivial]
  | cons p rest ih =>
    intro k v v' h
    obtain ⟨k', v''⟩ := p
    have hk : k' < k := by have := h (k', v'') (by simp); simpa using this
    rw [List.cons_append, btInsert, if_neg (by omega), if_neg (by omega),
      ih k v v' fun q hq => h q (by simp [hq])]
    rfl

theorem scanEntry_parsed (m : List (Nat × UpDownPair)) (k : Nat)
    (nm content : String) (d : Direction) (hk : k < 10000)
    (hval : ∀ c ∈ nm.toList, validNameChar c = true) :
    scanEntry m (MigrationFileName.toString ⟨k, nm, d⟩, content) =
      scanStep m ⟨k, nm, d⟩ content := by
  show (match MigrationFileName.parse (MigrationFileName.toString ⟨k, nm, d⟩) with
    | none => m
    | some info => scanStep m info content) = _
  rw [parse_to_string_roundtrip ⟨k, nm, d⟩ hk hval]

theorem scanStep_fresh_up (acc : List (Nat × UpDownPair)) (k : Nat)
    (un uc : String) (hacc : ∀ p ∈ acc, p.1 < k) :
    scanStep acc ⟨k, un, .Up⟩ uc =
      acc ++ [(k, ⟨some ⟨un, uc⟩, none⟩)] := by
  show btInsert acc k
      (match btFind acc k with
       | none => (⟨some ⟨un, uc⟩, none⟩ : UpDownPair)
       | some prev => ⟨some ⟨un, uc⟩, prev.down⟩) = _
  rw [btFind_none_of_lt acc k hacc]
  exact btInsert_append acc k _ hacc

theorem scanStep_fresh_down (acc : List (Nat × UpDownPair)) (k : Nat)
    (dn dc : String) (hacc : ∀ p ∈ acc, p.1 < k) :
    scanStep acc ⟨k, dn, .Down⟩ dc =
      acc ++ [(k, ⟨none, some ⟨dn, dc⟩⟩)] := by
  show btInsert acc k
      (match btFind acc k with
       | none => (⟨none, some ⟨dn, dc⟩⟩ : UpDownPair)
       | some prev => ⟨prev.up, some ⟨dn, dc⟩⟩) = _
  rw [btFind_none_of_lt acc k hacc]
  exact btInsert_append acc k _ hacc

theorem scanStep_update_down (acc : List (Nat × UpDownPair)) (k : Nat)
    (p1 : UpDownPair) (dn dc : String) (hacc : ∀ p ∈ acc, p.1 < k) :
    scanStep (acc ++ [(k, p1)]) ⟨k, dn, .Down⟩ dc =
      acc ++ [(k, ⟨p1.up, some ⟨dn, dc⟩⟩)] := by
  show btInsert (acc ++ [(k, p1)]) k
      (match btFind (acc ++ [(k, p1)]) k with
       | none => (⟨none, some ⟨dn, dc⟩⟩ : UpDownPair)
       | some prev => ⟨prev.up, some ⟨dn, dc⟩⟩) = _
  rw [btFind_append_self acc k p1 hacc]
  exact btInsert_replace_last acc k p1 _ hacc

theorem foldl_scanEntry_row (r : DirRow) (acc : List (Nat × UpDownPair))
    (hok : RowOk r) (hacc : ∀ p ∈ acc, p.1 < r.1) :
    List.foldl scanEntry acc (rowEntries r) = acc ++ [rowPair r] := by
  obtain ⟨k, up?, dn?⟩ := r
  obtain ⟨hnum, hupnm, hdnnm, hside⟩ := hok
  have hnum' : k ≤ 9999 := hnum
  have hacc' : ∀ p ∈ acc, p.1 < k := hacc
  rcases up? with _ | ⟨un, uc⟩ <;> rcases dn? with _ | ⟨dn, dc⟩
  · exact absurd hside (by simp)
  · show scanEntry acc (MigrationFileName.toString ⟨k, dn, .Down⟩, dc) =
      acc ++ [(k, ⟨none, some ⟨dn, dc⟩⟩)]
    rw [scanEntry_parsed acc k dn dc .Down (by omega) (hdnnm dn dc rfl),
      scanStep_fresh_down acc k dn dc hacc']
  · show scanEntry acc (MigrationFileName.toString ⟨k, un, .Up⟩, uc) =
      acc ++ [(k, ⟨some ⟨un, uc⟩, none⟩)]
    rw [scanEntry_parsed acc k un uc .Up (by omega) (hupnm un uc rfl),
      scanStep_fresh_up acc k un uc hacc']
  · show scanEntry (scanEntry acc (MigrationFileName.toString ⟨k, un, .Up⟩, uc))
        (MigrationFileName.toString ⟨k, dn, .Down⟩, dc) =
      acc ++ [(k, ⟨some ⟨un, uc⟩, some ⟨dn, dc⟩⟩)]
    rw [scanEntry_parsed acc k un uc .Up (by omega) (hupnm un uc rfl),
      scanStep_fresh_up acc k un uc hacc',
      scanEntry_parsed _ k dn dc .Down (by omega) (hdnnm dn dc rfl),
      scanStep_update_down acc k _ dn dc hacc']

theorem foldl_scanEntry_rows :
    ∀ (rows : List DirRow) (acc : List (Nat × UpDownPair)),
      List.Pairwise (fun a b => a.1 < b.1) rows →
      (∀ r ∈ rows, RowOk r) →
      (∀ p ∈ acc, ∀ r ∈ rows, p.1 < r.1) →
      List.foldl scanEntry acc (mkDirEntries rows) = acc ++ rows.map rowPair := by
  intro rows
  induction rows with
  | nil => intro acc _ _ _; simp [mkDirEntries]
  | cons r rest ih =>
    intro acc hpair hok hacc
    rw [mkDirEntries, List.flatMap_cons, List.foldl_append]
    rw [foldl_scanEntry_row r acc (hok r (by simp))
      fun p hp => hacc p hp r (by simp)]
    rw [show rest.flatMap rowEntries = mkDirEntries rest from rfl]
    rw [ih (acc ++ [rowPair r]) (List.Pairwise.of_cons hpair)
      (fun q hq => hok q (by simp [hq]))
      (fun p hp q hq => by
        rcases List.mem_append.1 hp with h1 | h2
        · exact hacc p h1 q (by simp [hq])
        · have hpr : p = rowPair r := by simpa using h2
          subst hpr
          have := (List.pairwise_cons.1 hpair).1 q hq
          simpa [rowPair] using this)]
    simp

theorem scan_mkDirEntries (rows : List DirRow)
    (hpair : List.Pairwise (fun a b => a.1 < b.1) rows)
    (hok : ∀ r ∈ rows, RowOk r) :
    scan (mkDirEntries rows) = rows.map rowPair := by
  rw [scan, foldl_scanEntry_rows rows [] hpair hok (by simp)]
  rfl

/-! ### Loader lemmas: the validation pass -/

theorem validate_pairing :
    ∀ (rows : List DirRow) (idx : Nat) (macc : Migrations),
      rows.map Prod.fst = List.range' (idx + 1) rows.length →
      (∀ p ∈ macc, ∀ r ∈ rows, p.1 < r.1) →
      validateLoop idx (rows.map rowPair) macc = pairingSpec rows macc := by
  intro rows
  induction rows with
  | nil => intro idx macc _ _; rfl
  | cons r rest ih =>
    intro idx macc hkeys hacc
    obtain ⟨k, up?, dn?⟩ := r
    rw [List.map_cons, List.length_cons, List.range'_succ] at hkeys
    injection hkeys with h1 h2
    have hk : k = idx + 1 := h1
    rw [List.map_cons]
    rcases up? with _ | ⟨un, uc⟩ <;> rcases dn? with _ | ⟨dn2, dc2⟩
    · show (if idx + 1 ≠ k then Except.error (LoadError.MissingMigration (idx + 1))
          else Except.error (LoadError.IncompleteMigrationPair k)) = _
      rw [if_neg (by omega)]
      rfl
    · show (if idx + 1 ≠ k then Except.error (LoadError.MissingMigration (idx + 1))
          else Except.error (LoadError.IncompleteMigrationPair k)) = _
      rw [if_neg (by omega)]
      rfl
    · show (if idx + 1 ≠ k then Except.error (LoadError.MissingMigration (idx + 1))
          else Except.error (LoadError.IncompleteMigrationPair k)) = _
      rw [if_neg (by omega)]
      rfl
    · show (if idx + 1 ≠ k then Except.error (LoadError.MissingMigration (idx + 1))
          else if un ≠ dn2 then Except.error (LoadError.NameMismatch k un dn2)
          else validateLoop (idx + 1) (rest.map rowPair)
            (btInsert macc k ⟨uc, dc2, un⟩)) = _
      rw [if_neg (by omega)]
      by_cases hnm : un = dn2
      · rw [if_neg (by simp [hnm]),
          btInsert_append macc k _ fun p hp =>
            hacc p hp (k, some (un, uc), some (dn2, dc2)) (by simp),
          ih (idx + 1) (macc ++ [(k, Migration.mk uc dc2 un)]) h2
            (fun p hp q hq => by
              rcases List.mem_append.1 hp with hp1 | hp2
              · exact hacc p hp1 q (by simp [hq])
              · have : p = (k, (⟨uc, dc2, un⟩ : Migration)) := by simpa using hp2
                subst this
                have hq1 : q.1 ∈ rest.map Prod.fst := List.mem_map_of_mem _ hq
                rw [h2] at hq1
                have := mem_range'_bounds hq1
                simp only []
                omega)]
        show _ = (if un ≠ dn2 then Except.error (LoadError.NameMismatch k un dn2)
          else pairingSpec rest (macc ++ [(k, ⟨uc, dc2, un⟩)]))
        rw [if_neg (by simp [hnm])]
      · rw [if_pos hnm]
        show _ = (if un ≠ dn2 then Except.error (LoadError.NameMismatch k un dn2)
          else pairingSpec rest (macc ++ [(k, ⟨uc, dc2, un⟩)]))
        rw [if_pos hnm]

theorem validate_firstMismatch (nmC upC dnC : Nat → String) :
    ∀ (ks : List Nat) (idx : Nat) (macc : Migrations) (j : Nat),
      firstMismatch ks idx = some j →
      validateLoop idx
          ((ks.map fun k => (k, some (nmC k, upC k), some (nmC k, dnC k))).map
            rowPair) macc =
        .error (.MissingMigration j) := by
  intro ks
  induction ks with
  | nil => intro idx macc j h; exact absurd h (by simp [firstMismatch])
  | cons k rest ih =>
    intro idx macc j h
    rw [List.map_cons, List.map_cons]
    show (if idx + 1 ≠ k then Except.error (LoadError.MissingMigration (idx + 1))
        else if nmC k ≠ nmC k then
          Except.error (LoadError.NameMismatch k (nmC k) (nmC k))
        else validateLoop (idx + 1)
          ((rest.map fun k => (k, some (nmC k, upC k), some (nmC k, dnC k))).map
            rowPair)
          (btInsert macc k ⟨upC k, dnC k, nmC k⟩)) = _
    by_cases hk : idx + 1 = k
    · rw [if_neg (by omega), if_neg (by simp)]
      rw [firstMismatch, if_neg (by omega)] at h
      exact ih (idx + 1) _ j h
    · rw [if_pos (by omega)]
      rw [firstMismatch, if_pos (by omega)] at h
      rw [show j = idx + 1 from (Option.some.inj h).symm]

/-! ### Claim C7: per-number pairing and name checks of the loader -/

/-- **C7**: for every directory whose parsed numbers are contiguous from
1, the loader processes numbers in ascending order and, per number, fails
with `IncompleteMigrationPair(number)` when a side is absent, fails with
`NameMismatch(number, upName, downName)` when both sides are present with
different names, and only otherwise emits the migration — i.e. the full
loader refines the claim's pairing rule `pairingSpec`. -/
theorem C7_loader_pairing_refines_spec (rows : List DirRow)
    (hkeys : rows.map Prod.fst = List.range' 1 rows.length)
    (hok : ∀ r ∈ rows, RowOk r) :
    read_migration_files (mkDirEntries rows) = pairingSpec rows [] := by
  have hpair : List.Pairwise (fun a b => a.1 < b.1) rows := by
    have h := List.pairwise_lt_range' 1 rows.length
    rw [← hkeys] at h
    exact List.pairwise_map.1 h
  rw [read_migration_files, scan_mkDirEntries rows hpair hok]
  exact validate_pairing rows 0 [] (by simpa using hkeys) (by simp)

/-- Witness for C7: number 1 has only an up side, so loading fails with
`IncompleteMigrationPair(1)` exactly as the pairing rule prescribes. -/
theorem C7_loader_pairing_refines_spec_witness :
    read_migration_files (mkDirEntries [(1, some ("a", "x"), none)]) =
      pairingSpec [(1, some ("a", "x"), none)] [] := by
  have hok : ∀ r ∈ ([(1, some ("a", "x"), none)] : List DirRow), RowOk r := by
    intro r hr
    have : r = (1, some ("a", "x"), none) := by simpa using hr
    subst this
    refine ⟨by omega, ?_, ?_, by simp⟩
    · intro nm c h
      have h1 : nm = "a" := by simp at h; exact h.1.symm
      subst h1
      decide
    · intro nm c h
      exact absurd h (by simp)
  exact C7_loader_pairing_refines_spec [(1, some ("a", "x"), none)]
    (by decide) hok

/-! ### Claim C3: gap detection -/

/-- **C3, counterexample**: the directory `{0001.a.up.sql, 0003.b.up.sql,
0003.b.down.sql}` has parseable numbers `{1, 3}` (first mismatch at
i = 2), yet the loader fails with `IncompleteMigrationPair(1)` — the
per-number pair check runs before the gap at 2 is reached, so the claim's
"fails with MissingMigration(i) for the first such i" is false for
directories whose earlier numbers have incomplete pairs. -/
theorem C3_counterexample :
    (scan [("0001.a.up.sql", "x"), ("0003.b.up.sql", "y"),
        ("0003.b.down.sql", "z")]).map Prod.fst = [1, 3] ∧
    read_migration_files [("0001.a.up.sql", "x"), ("0003.b.up.sql", "y"),
        ("0003.b.down.sql", "z")] = .error (.IncompleteMigrationPair 1) ∧
    read_migration_files [("0001.a.up.sql", "x"), ("0003.b.up.sql", "y"),
        ("0003.b.down.sql", "z")] ≠ .error (.MissingMigration 2) := by
  refine ⟨by decide, rfl, ?_⟩
  intro h
  have e : read_migration_files [("0001.a.up.sql", "x"), ("0003.b.up.sql", "y"),
      ("0003.b.down.sql", "z")] =
      Except.error (LoadError.IncompleteMigrationPair 1) := rfl
  exact LoadError.noConfusion (Except.error.inj (e.symm.trans h))

/-- **C3, amended**: for every directory whose parseable filenames form
complete pairs with matching names, if the i-th smallest number differs
from i, the loader fails with `MissingMigration(i)` for the first such i
(an earlier incomplete or mismatched pair would preempt the gap error —
see the counterexample); in particular pairs numbered `{1, 3}` with no 2
fail with `MissingMigration(2)`. -/
theorem C3_missing_migration_detected (ks : List Nat)
    (nmC upC dnC : Nat → String) (j : Nat)
    (hpair : List.Pairwise (· < ·) ks)
    (hk9999 : ∀ k ∈ ks, k ≤ 9999)
    (hnm : ∀ k ∈ ks, ∀ c ∈ (nmC k).toList, validNameChar c = true)
    (hmm : firstMismatch ks 0 = some j) :
    read_migration_files
        (mkDirEntries (ks.map fun k => (k, some (nmC k, upC k), some (nmC k, dnC k)))) =
      .error (.MissingMigration j) := by
  have hpair' : List.Pairwise (fun a b => a.1 < b.1)
      (ks.map fun k => (k, some (nmC k, upC k), some (nmC k, dnC k))) :=
    List.pairwise_map.2 (by exact hpair)
  have hok : ∀ r ∈ ks.map fun k => (k, some (nmC k, upC k), some (nmC k, dnC k)),
      RowOk r := by
    intro r hr
    obtain ⟨k, hk, rfl⟩ := List.mem_map.1 hr
    refine ⟨hk9999 k hk, ?_, ?_, by simp⟩
    · intro nm c h
      have h1 : nm = nmC k := by simp at h; exact h.1.symm
      subst h1
      exact hnm k hk
    · intro nm c h
      have h1 : nm = nmC k := by simp at h; exact h.1.symm
      subst h1
      exact hnm k hk
  rw [read_migration_files, scan_mkDirEntries _ hpair' hok]
  exact validate_firstMismatch nmC upC dnC ks 0 [] j hmm

/-- Witness for C3's amended theorem: complete pairs numbered `{1, 3}`
fail with `MissingMigration(2)`. -/
theorem C3_missing_migration_detected_witness :
    read_migration_files
        (mkDirEntries ([1, 3].map fun k =>
          (k, some ("m", "u"), some ("m", "d")))) =
      .error (.MissingMigration 2) :=
  C3_missing_migration_detected [1, 3] (fun _ => "m") (fun _ => "u")
    (fun _ => "d") 2 (by decide) (by decide) (by decide) (by decide)

end Dbmigrate
